import Mathlib

/-!
Shallow embedding of the `maybe_null` crate (src/lib.rs): a nullable
pointer value `MaybeNull<T>` wrapping `Option<NonNull<T>>`, and its
atomic counterpart `AtomicMaybeNull<T>` wrapping `AtomicPtr<T>`.

Raw pointers (`*mut T`) are modelled as their numeric address, a `Nat`;
a machine address is a word, i.e. strictly below `WORD = 2 ^ 64`, and
the wrapping arithmetic operations reduce modulo `WORD` exactly where
the Rust `usize` arithmetic wraps.  A referent type `T` is represented
by the data the pointer operations consume: its size and alignment.
Memory orderings are carried as inert parameters: in this
single-threaded semantics an atomic operation is a pure state
transition on the cell's one-word content, and the ordering argument
constrains only inter-thread visibility, which has no observable
effect in a sequential execution.

The `unsafe` operations of the crate (dereference via `as_ref`/`as_mut`
and the in-bounds `offset`/`add`/`sub` family) carry undefined-behavior
preconditions and are not modelled; every claim treated here is about
the safe surface.
-/

/-- The size of the address space: `usize` arithmetic wraps modulo this. -/
def WORD : Nat := 2 ^ 64

/-- The data of a Rust referent type `T` that the pointer operations
consume: `size_of::<T>()` and `align_of::<T>()`. -/
structure RustTy where
  size : Nat
  align : Nat
deriving DecidableEq

/-- `core::ptr::NonNull<T>`: an address guaranteed nonzero. -/
structure NonNull (τ : RustTy) where
  addr : Nat
  ne : addr ≠ 0

namespace NonNull

/-- `NonNull::new(ptr)`: checks the raw pointer against null. -/
def new {τ : RustTy} (a : Nat) : Option (NonNull τ) :=
  if h : a = 0 then none else some ⟨a, h⟩

theorem new_zero {τ : RustTy} : (new 0 : Option (NonNull τ)) = none := rfl

theorem new_ne_zero {τ : RustTy} (a : Nat) (h : a ≠ 0) :
    (new a : Option (NonNull τ)) = some ⟨a, h⟩ := by
  simp [new, h]

theorem ext {τ : RustTy} (a b : NonNull τ) (h : a.addr = b.addr) : a = b := by
  cases a; cases b; simp_all

end NonNull

/-- `MaybeNull<T>`: a `repr(transparent)` wrapper around
`Option<NonNull<T>>`. -/
structure MaybeNull (τ : RustTy) where
  ptr : Option (NonNull τ)

namespace MaybeNull

/-- `MaybeNull::wrap`. -/
def wrap {τ : RustTy} (p : Option (NonNull τ)) : MaybeNull τ :=
  { ptr := p }

/-- `MaybeNull::new(ptr)`: wraps `NonNull::new(ptr)`. -/
def new {τ : RustTy} (a : Nat) : MaybeNull τ :=
  wrap (NonNull.new a)

/-- `MaybeNull::map(f)`: applies `f` to the raw pointer
(`self.ptr.map_or(null, as_ptr)`) and rebuilds through `new`. -/
def map {τ υ : RustTy} (p : MaybeNull τ) (f : Nat → Nat) : MaybeNull υ :=
  new (f (p.ptr.elim 0 NonNull.addr))

/-- `MaybeNull::from_non_null(ptr)`. -/
def from_non_null {τ : RustTy} (v : NonNull τ) : MaybeNull τ :=
  wrap (some v)

/-- `MaybeNull::with_exposed_provenance(addr)`: the resulting pointer
carries the given address (provenance is not observable here). -/
def with_exposed_provenance {τ : RustTy} (a : Nat) : MaybeNull τ :=
  new a

/-- `MaybeNull::without_provenance(addr)`. -/
def without_provenance {τ : RustTy} (a : Nat) : MaybeNull τ :=
  new a

/-- `MaybeNull::null()`. -/
def null {τ : RustTy} : MaybeNull τ :=
  new 0

/-- `MaybeNull::dangling()`: `ptr::dangling_mut` has address
`align_of::<T>()`. -/
def dangling {τ : RustTy} : MaybeNull τ :=
  new τ.align

/-- `MaybeNull::get()`. -/
def get {τ : RustTy} (p : MaybeNull τ) : Option (NonNull τ) :=
  p.ptr

/-- `MaybeNull::is_null()`. -/
def is_null {τ : RustTy} (p : MaybeNull τ) : Bool :=
  p.get.isNone

/-- `MaybeNull::set(value)`: overwrites with a non-null value. -/
def set {τ : RustTy} (_p : MaybeNull τ) (v : NonNull τ) : MaybeNull τ :=
  { ptr := some v }

/-- `MaybeNull::nullify()`. -/
def nullify {τ : RustTy} (_p : MaybeNull τ) : MaybeNull τ :=
  null

/-- `MaybeNull::get_unchecked()`: the bare address, zero when absent. -/
def get_unchecked {τ : RustTy} (p : MaybeNull τ) : Nat :=
  p.ptr.elim 0 NonNull.addr

/-- `MaybeNull::cast::<U>()`: a raw-pointer cast keeps the address. -/
def cast {τ υ : RustTy} (p : MaybeNull τ) : MaybeNull υ :=
  p.map (fun a => a)

/-- `MaybeNull::addr()`. -/
def addr {τ : RustTy} (p : MaybeNull τ) : Nat :=
  p.ptr.elim 0 NonNull.addr

/-- `MaybeNull::wrapping_add(count)`: `usize` arithmetic on the address,
offsetting by `count * size_of::<T>()` bytes, wrapping modulo `WORD`. -/
def wrapping_add {τ : RustTy} (p : MaybeNull τ) (count : Nat) : MaybeNull τ :=
  p.map (fun a => (a + count * τ.size) % WORD)

/-- `MaybeNull::wrapping_byte_add(count)`. -/
def wrapping_byte_add {τ : RustTy} (p : MaybeNull τ) (count : Nat) : MaybeNull τ :=
  p.map (fun a => (a + count) % WORD)

/-- `MaybeNull::wrapping_sub(count)`: wrapping subtraction of
`count * size_of::<T>()` bytes, i.e. addition of the two's complement. -/
def wrapping_sub {τ : RustTy} (p : MaybeNull τ) (count : Nat) : MaybeNull τ :=
  p.map (fun a => (a + (WORD - count * τ.size % WORD)) % WORD)

/-- `MaybeNull::wrapping_byte_sub(count)`. -/
def wrapping_byte_sub {τ : RustTy} (p : MaybeNull τ) (count : Nat) : MaybeNull τ :=
  p.map (fun a => (a + (WORD - count % WORD)) % WORD)

end MaybeNull

/-! ### The derived comparison and hashing traits

`PartialEq`, `Ord` and `Hash` on `MaybeNull<T>` each delegate to the
corresponding impl on `Option<NonNull<T>>`: equality compares the two
options structurally (`NonNull` equality is address equality); `Ord`
on `Option` puts `None` below every `Some` and compares two `Some`s by
address; the derived `Hash` on `Option` feeds the variant discriminant
to the hasher and then, for `Some`, the pointer's address.  A hasher is
modelled extensionally as the sequence of machine words written to it
(`write_usize`/`write_isize` of a small nonnegative value write the
same word). -/

/-- `PartialEq::eq` on `Option<NonNull<T>>`. -/
def optNonNullBeq {τ : RustTy} : Option (NonNull τ) → Option (NonNull τ) → Bool
  | none, none => true
  | some a, some b => a.addr == b.addr
  | _, _ => false

/-- `PartialEq::eq` on `MaybeNull<T>`: delegates to the field. -/
def MaybeNull.beq {τ : RustTy} (p q : MaybeNull τ) : Bool :=
  optNonNullBeq p.ptr q.ptr

/-- `Ord::cmp` on `Option<NonNull<T>>`: `None` sorts below any `Some`,
and two `Some`s compare by address. -/
def optNonNullCmp {τ : RustTy} : Option (NonNull τ) → Option (NonNull τ) → Ordering
  | none, none => .eq
  | none, some _ => .lt
  | some _, none => .gt
  | some a, some b => compare a.addr b.addr

/-- `Ord::cmp` on `MaybeNull<T>`: delegates to the field. -/
def MaybeNull.cmp {τ : RustTy} (p q : MaybeNull τ) : Ordering :=
  optNonNullCmp p.ptr q.ptr

/-- A hasher state: the words written so far, earliest first. -/
abbrev HashStream := List Nat

/-- `Hasher::write_usize` (and `write_isize` of a nonnegative
discriminant): appends the word. -/
def hashUsize (a : Nat) (s : HashStream) : HashStream :=
  s ++ [a]

/-- `Hash` on `Option<NonNull<T>>` (derived): writes the discriminant,
then for `Some` the pointer's address. -/
def optNonNullHash {τ : RustTy} : Option (NonNull τ) → HashStream → HashStream
  | none, s => hashUsize 0 s
  | some a, s => hashUsize a.addr (hashUsize 1 s)

/-- `Hash::hash` on `MaybeNull<T>`: delegates to the field. -/
def MaybeNull.hash {τ : RustTy} (p : MaybeNull τ) (s : HashStream) : HashStream :=
  optNonNullHash p.ptr s

/-! ### The atomic cell

`AtomicMaybeNull<T>` holds one machine word, the raw address.  Each
operation is modelled as a pure transition from the cell's state to a
(result, new state) pair; read-only operations return just the result.
The memory-ordering arguments are inert in this sequential semantics. -/

/-- `core::sync::atomic::Ordering`. -/
inductive MemOrdering where
  | relaxed
  | acquire
  | release
  | acqRel
  | seqCst
deriving DecidableEq

/-- `AtomicMaybeNull<T>`: a `repr(transparent)` wrapper around
`AtomicPtr<T>`; the state is the stored raw address. -/
structure AtomicMaybeNull (τ : RustTy) where
  ptr : Nat

namespace AtomicMaybeNull

/-- `AtomicMaybeNull::new(ptr)`. -/
def new {τ : RustTy} (a : Nat) : AtomicMaybeNull τ :=
  { ptr := a }

/-- `AtomicMaybeNull::from_non_null(ptr)`. -/
def from_non_null {τ : RustTy} (v : NonNull τ) : AtomicMaybeNull τ :=
  new v.addr

/-- `AtomicMaybeNull::null()`. -/
def null {τ : RustTy} : AtomicMaybeNull τ :=
  new 0

/-- `AtomicMaybeNull::dangling()`. -/
def dangling {τ : RustTy} : AtomicMaybeNull τ :=
  new τ.align

/-- `AtomicMaybeNull::get_unchecked(order)`: an atomic load. -/
def get_unchecked {τ : RustTy} (a : AtomicMaybeNull τ) (_order : MemOrdering) : Nat :=
  a.ptr

/-- `AtomicMaybeNull::get(order)`: `NonNull::new(load)`. -/
def get {τ : RustTy} (a : AtomicMaybeNull τ) (order : MemOrdering) : Option (NonNull τ) :=
  NonNull.new (a.get_unchecked order)

/-- `AtomicMaybeNull::is_null(order)`. -/
def is_null {τ : RustTy} (a : AtomicMaybeNull τ) (order : MemOrdering) : Bool :=
  (a.get order).isNone

/-- `AtomicMaybeNull::set(value, order)`: an atomic store of a non-null
value; the new cell state. -/
def set {τ : RustTy} (_a : AtomicMaybeNull τ) (v : NonNull τ) (_order : MemOrdering) :
    AtomicMaybeNull τ :=
  { ptr := v.addr }

/-- `AtomicMaybeNull::nullify(order)`: an atomic store of null. -/
def nullify {τ : RustTy} (_a : AtomicMaybeNull τ) (_order : MemOrdering) :
    AtomicMaybeNull τ :=
  { ptr := 0 }

/-- `AtomicMaybeNull::swap(other, order)`: returns `Self::new` of the
prior word and leaves `other` in the cell. -/
def swap {τ : RustTy} (a : AtomicMaybeNull τ) (other : Nat) (_order : MemOrdering) :
    AtomicMaybeNull τ × AtomicMaybeNull τ :=
  (new a.ptr, new other)

/-- `AtomicMaybeNull::compare_exchange(current, new, success, failure)`:
installs `n` iff the cell holds `current`; either branch of the
`Result` carries `Self::new` of the observed prior word. -/
def compare_exchange {τ : RustTy} (a : AtomicMaybeNull τ) (current n : Nat)
    (_success _failure : MemOrdering) :
    Except (AtomicMaybeNull τ) (AtomicMaybeNull τ) × AtomicMaybeNull τ :=
  if a.ptr = current then (.ok (new a.ptr), new n) else (.error (new a.ptr), a)

/-- `AtomicMaybeNull::compare_exchange_weak`: as `compare_exchange`, but
permitted to fail spuriously; the oracle `spurious` says whether this
invocation does. -/
def compare_exchange_weak {τ : RustTy} (a : AtomicMaybeNull τ) (current n : Nat)
    (success failure : MemOrdering) (spurious : Bool) :
    Except (AtomicMaybeNull τ) (AtomicMaybeNull τ) × AtomicMaybeNull τ :=
  if spurious then (.error (new a.ptr), a)
  else a.compare_exchange current n success failure

/-- `AtomicMaybeNull::fetch_update(set_order, fetch_order, f)`: loads the
word, and either stops with `Err` of it when `f` returns `None`, or
installs `f`'s result and returns `Ok` of the prior word.  In this
sequential semantics the internal compare-exchange retry loop succeeds
on its first iteration, since no other thread can intervene between the
load and the exchange. -/
def fetch_update {τ : RustTy} (a : AtomicMaybeNull τ)
    (_set_order _fetch_order : MemOrdering) (f : Nat → Option Nat) :
    Except (AtomicMaybeNull τ) (AtomicMaybeNull τ) × AtomicMaybeNull τ :=
  match f a.ptr with
  | none => (.error (new a.ptr), a)
  | some next => (.ok (new a.ptr), new next)

end AtomicMaybeNull

/-! ### Concrete referent types used by the closed witnesses. -/

/-- A one-byte referent type (`u8`). -/
def tyU8 : RustTy := { size := 1, align := 1 }

/-- A four-byte referent type (`u32`). -/
def tyU32 : RustTy := { size := 4, align := 4 }

/-! ### Basic lemmas about the embedding -/

theorem MaybeNull.addr_new {τ : RustTy} (a : Nat) :
    (MaybeNull.new a : MaybeNull τ).addr = a := by
  by_cases h : a = 0 <;>
    simp [MaybeNull.new, MaybeNull.wrap, MaybeNull.addr, NonNull.new, h]

theorem MaybeNull.is_null_new {τ : RustTy} (a : Nat) :
    (MaybeNull.new a : MaybeNull τ).is_null = decide (a = 0) := by
  by_cases h : a = 0 <;>
    simp [MaybeNull.new, MaybeNull.wrap, MaybeNull.is_null, MaybeNull.get,
      NonNull.new, h]

theorem MaybeNull.addr_map {τ υ : RustTy} (p : MaybeNull τ) (f : Nat → Nat) :
    (p.map f : MaybeNull υ).addr = f p.addr :=
  MaybeNull.addr_new _

theorem MaybeNull.is_null_map {τ υ : RustTy} (p : MaybeNull τ) (f : Nat → Nat) :
    (p.map f : MaybeNull υ).is_null = decide (f p.addr = 0) :=
  MaybeNull.is_null_new _

theorem MaybeNull.is_null_eq_decide {τ : RustTy} (p : MaybeNull τ) :
    p.is_null = decide (p.addr = 0) := by
  obtain ⟨_ | v⟩ := p
  · simp [MaybeNull.is_null, MaybeNull.get, MaybeNull.addr]
  · simp [MaybeNull.is_null, MaybeNull.get, MaybeNull.addr, v.ne]

theorem WORD_pos : 0 < WORD := by norm_num [WORD]

/-- Wrapping subtraction is the modular inverse of wrapping addition of
the same byte offset. -/
theorem wrap_add_sub_cancel (a d : Nat) (h : a < WORD) :
    ((a + d) % WORD + (WORD - d % WORD)) % WORD = a := by
  have hW : WORD = 18446744073709551616 := by norm_num [WORD]
  rw [hW] at h ⊢
  omega

/-! ### Claim theorems -/

/-- C2: for every raw address `a`, if `a` is nonzero then
`MaybeNull::new(a)` is non-absent and its `addr()` equals `a`; if `a`
is zero, or `MaybeNull::null()` is used, the result is absent. -/
theorem c2_new_from_raw_address {τ : RustTy} (a : Nat) (h : a ≠ 0) :
    (MaybeNull.new a : MaybeNull τ).is_null = false ∧
    (MaybeNull.new a : MaybeNull τ).addr = a ∧
    (MaybeNull.new 0 : MaybeNull τ).is_null = true ∧
    (MaybeNull.null : MaybeNull τ).is_null = true := by
  refine ⟨?_, MaybeNull.addr_new a, ?_, ?_⟩ <;>
    simp [MaybeNull.is_null_new, MaybeNull.null, h]

theorem c2_witness :
    (5 : Nat) ≠ 0 ∧
    ((MaybeNull.new 5 : MaybeNull tyU8).is_null = false ∧
     (MaybeNull.new 5 : MaybeNull tyU8).addr = 5 ∧
     (MaybeNull.new 0 : MaybeNull tyU8).is_null = true ∧
     (MaybeNull.null : MaybeNull tyU8).is_null = true) :=
  ⟨by decide, c2_new_from_raw_address 5 (by decide)⟩

/-- C4: `is_null` returns true iff `get` returns `None`; a non-absent
value has `is_null = false` and `get = Some handle`, the absent value
has `is_null = true` and `get = None`.  Both are pure functions of the
value (no side effects). -/
theorem c4_is_null_iff_get_none {τ : RustTy} (p : MaybeNull τ) :
    (p.is_null = true ↔ p.get = none) ∧
    (p.is_null = false ↔ ∃ v, p.get = some v) ∧
    (MaybeNull.null : MaybeNull τ).is_null = true ∧
    (MaybeNull.null : MaybeNull τ).get = none := by
  obtain ⟨_ | v⟩ := p <;>
    simp [MaybeNull.is_null, MaybeNull.get, MaybeNull.null, MaybeNull.new,
      MaybeNull.wrap, NonNull.new]

/-- C5: `cast::<U>()` preserves absence, and casting to `U` and back to
`T` preserves the raw address bit-for-bit. -/
theorem c5_cast_preserves_absence_and_addr {τ υ : RustTy} (p : MaybeNull τ) :
    ((p.cast : MaybeNull υ).is_null = p.is_null) ∧
    (((p.cast : MaybeNull υ).cast : MaybeNull τ).addr = p.addr) := by
  constructor
  · rw [MaybeNull.cast, MaybeNull.is_null_map, MaybeNull.is_null_eq_decide p]
  · simp [MaybeNull.cast, MaybeNull.addr_map]

/-- C9: `nullify` and `set` are idempotent: nullifying twice equals
nullifying once and leaves the value absent; setting the same non-null
handle twice equals setting it once and leaves the address unchanged. -/
theorem c9_set_nullify_idempotent {τ : RustTy} (p : MaybeNull τ) (v : NonNull τ) :
    (p.nullify.nullify = p.nullify) ∧
    (p.nullify.is_null = true) ∧
    ((p.set v).set v = p.set v) ∧
    (((p.set v).set v).addr = (p.set v).addr) := by
  exact ⟨rfl, by simp [MaybeNull.nullify, MaybeNull.null, MaybeNull.is_null_new], rfl, rfl⟩

/-- C1: a strong `compare_exchange` on a cell holding `X` with
`expected = X, new = Y` succeeds, carries the previous value `X` in the
`Ok` branch, and the cell subsequently reads `Y`; with
`expected = Z ≠ X` it fails, carries the observed current value `X` in
the `Err` branch, and the cell is unchanged. -/
theorem c1_compare_exchange_strong {τ : RustTy} (a : AtomicMaybeNull τ)
    (X Y Z : Nat) (so fo : MemOrdering) (hX : a.ptr = X) (hZ : Z ≠ X) :
    ((a.compare_exchange X Y so fo).1 = .ok (AtomicMaybeNull.new X) ∧
     (a.compare_exchange X Y so fo).2.get_unchecked fo = Y) ∧
    ((a.compare_exchange Z Y so fo).1 = .error (AtomicMaybeNull.new X) ∧
     (a.compare_exchange Z Y so fo).2 = a) := by
  subst hX
  have hZ' : ¬ (a.ptr = Z) := fun h => hZ h.symm
  refine ⟨⟨?_, ?_⟩, ?_, ?_⟩ <;>
    simp [AtomicMaybeNull.compare_exchange, AtomicMaybeNull.get_unchecked,
      AtomicMaybeNull.new, hZ']

theorem c1_witness :
    (AtomicMaybeNull.new 7 : AtomicMaybeNull tyU8).ptr = 7 ∧ (3 : Nat) ≠ 7 ∧
    ((((AtomicMaybeNull.new 7 : AtomicMaybeNull tyU8).compare_exchange 7 9
          .seqCst .seqCst).1 = .ok (AtomicMaybeNull.new 7) ∧
      ((AtomicMaybeNull.new 7 : AtomicMaybeNull tyU8).compare_exchange 7 9
          .seqCst .seqCst).2.get_unchecked .seqCst = 9) ∧
     (((AtomicMaybeNull.new 7 : AtomicMaybeNull tyU8).compare_exchange 3 9
          .seqCst .seqCst).1 = .error (AtomicMaybeNull.new 7) ∧
      ((AtomicMaybeNull.new 7 : AtomicMaybeNull tyU8).compare_exchange 3 9
          .seqCst .seqCst).2 = AtomicMaybeNull.new 7)) :=
  ⟨rfl, by decide,
    c1_compare_exchange_strong (AtomicMaybeNull.new 7) 7 9 3 .seqCst .seqCst rfl
      (by decide)⟩

/-- C7: on a cell holding `p1`, `swap(p2)` returns `p1` (wrapped by
`Self::new`, whose `get` agrees with the Nullable-Pointer view of `p1`)
and the cell subsequently holds `p2`. -/
theorem c7_swap {τ : RustTy} (a : AtomicMaybeNull τ) (p1 p2 : Nat)
    (o : MemOrdering) (h : a.ptr = p1) :
    (a.swap p2 o).1 = AtomicMaybeNull.new p1 ∧
    (a.swap p2 o).1.get o = (MaybeNull.new p1 : MaybeNull τ).get ∧
    (a.swap p2 o).2.get_unchecked o = p2 := by
  subst h
  exact ⟨rfl, rfl, rfl⟩

theorem c7_witness :
    (AtomicMaybeNull.new 7 : AtomicMaybeNull tyU8).ptr = 7 ∧
    (((AtomicMaybeNull.new 7 : AtomicMaybeNull tyU8).swap 9 .seqCst).1 =
        AtomicMaybeNull.new 7 ∧
     ((AtomicMaybeNull.new 7 : AtomicMaybeNull tyU8).swap 9 .seqCst).1.get .seqCst =
        (MaybeNull.new 7 : MaybeNull tyU8).get ∧
     ((AtomicMaybeNull.new 7 : AtomicMaybeNull tyU8).swap 9 .seqCst).2.get_unchecked
        .seqCst = 9) :=
  ⟨rfl, c7_swap (AtomicMaybeNull.new 7) 7 9 .seqCst rfl⟩

/-- C6: `fetch_update` with a function that returns `None` on every
input reports failure carrying the observed current value and leaves
the cell unmodified, for every choice of the two ordering parameters. -/
theorem c6_fetch_update_no_change {τ : RustTy} (a : AtomicMaybeNull τ)
    (so fo : MemOrdering) (f : Nat → Option Nat) (hf : ∀ x, f x = none) :
    (a.fetch_update so fo f).1 = .error (AtomicMaybeNull.new a.ptr) ∧
    (a.fetch_update so fo f).2 = a := by
  simp [AtomicMaybeNull.fetch_update, hf]

theorem c6_witness :
    ((AtomicMaybeNull.new 5 : AtomicMaybeNull tyU8).fetch_update .release .relaxed
        (fun _ => none)).1 = .error (AtomicMaybeNull.new 5) ∧
    ((AtomicMaybeNull.new 5 : AtomicMaybeNull tyU8).fetch_update .release .relaxed
        (fun _ => none)).2 = AtomicMaybeNull.new 5 :=
  c6_fetch_update_no_change (AtomicMaybeNull.new 5) .release .relaxed
    (fun _ => none) (fun _ => rfl)

/-- C8: the wrapping arithmetic operations are total (no precondition,
no abort): each produces the address offset reduced modulo the word
size, always a valid word, and wrapping subtraction of the same offset
undoes wrapping addition. -/
theorem c8_wrapping_arithmetic {τ : RustTy} (p : MaybeNull τ) (c : Nat)
    (h : p.addr < WORD) :
    ((p.wrapping_byte_add c).addr = (p.addr + c) % WORD) ∧
    ((p.wrapping_add c).addr = (p.addr + c * τ.size) % WORD) ∧
    ((p.wrapping_byte_add c).addr < WORD ∧ (p.wrapping_add c).addr < WORD ∧
     (p.wrapping_byte_sub c).addr < WORD ∧ (p.wrapping_sub c).addr < WORD) ∧
    (((p.wrapping_byte_add c).wrapping_byte_sub c).addr = p.addr) ∧
    (((p.wrapping_add c).wrapping_sub c).addr = p.addr) := by
  refine ⟨?_, ?_, ⟨?_, ?_, ?_, ?_⟩, ?_, ?_⟩ <;>
    simp [MaybeNull.wrapping_byte_add, MaybeNull.wrapping_add,
      MaybeNull.wrapping_byte_sub, MaybeNull.wrapping_sub, MaybeNull.addr_map,
      Nat.mod_lt _ WORD_pos, wrap_add_sub_cancel _ _ h]

theorem c8_witness :
    (MaybeNull.new (WORD - 1) : MaybeNull tyU8).addr < WORD ∧
    (((MaybeNull.new (WORD - 1) : MaybeNull tyU8).wrapping_byte_add 2).addr =
        ((MaybeNull.new (WORD - 1) : MaybeNull tyU8).addr + 2) % WORD ∧
     ((MaybeNull.new (WORD - 1) : MaybeNull tyU8).wrapping_add 2).addr =
        ((MaybeNull.new (WORD - 1) : MaybeNull tyU8).addr + 2 * tyU8.size) % WORD ∧
     (((MaybeNull.new (WORD - 1) : MaybeNull tyU8).wrapping_byte_add 2).addr < WORD ∧
      ((MaybeNull.new (WORD - 1) : MaybeNull tyU8).wrapping_add 2).addr < WORD ∧
      ((MaybeNull.new (WORD - 1) : MaybeNull tyU8).wrapping_byte_sub 2).addr < WORD ∧
      ((MaybeNull.new (WORD - 1) : MaybeNull tyU8).wrapping_sub 2).addr < WORD) ∧
     ((((MaybeNull.new (WORD - 1) : MaybeNull tyU8).wrapping_byte_add 2).wrapping_byte_sub
          2).addr = (MaybeNull.new (WORD - 1) : MaybeNull tyU8).addr) ∧
     ((((MaybeNull.new (WORD - 1) : MaybeNull tyU8).wrapping_add 2).wrapping_sub
          2).addr = (MaybeNull.new (WORD - 1) : MaybeNull tyU8).addr)) :=
  ⟨by rw [MaybeNull.addr_new]; norm_num [WORD],
    c8_wrapping_arithmetic (MaybeNull.new (WORD - 1)) 2
      (by rw [MaybeNull.addr_new]; norm_num [WORD])⟩

/-- C10: wrapping arithmetic does not preserve absence: applied to the
absent value it computes from address zero, so any count with nonzero
effective byte offset yields a non-absent value at that offset, and a
non-absent value whose address wraps exactly to zero becomes absent. -/
theorem c10_wrapping_not_absence_preserving {τ : RustTy} (c d : Nat)
    (p : MaybeNull τ) (hc : c % WORD ≠ 0) (hd : d * τ.size % WORD ≠ 0)
    (hp : (p.addr + c) % WORD = 0) :
    (((MaybeNull.null : MaybeNull τ).wrapping_byte_add c).is_null = false ∧
     ((MaybeNull.null : MaybeNull τ).wrapping_byte_add c).addr = c % WORD) ∧
    (((MaybeNull.null : MaybeNull τ).wrapping_add d).is_null = false ∧
     ((MaybeNull.null : MaybeNull τ).wrapping_add d).addr = d * τ.size % WORD) ∧
    ((p.wrapping_byte_add c).is_null = true) := by
  have hnull : (MaybeNull.null : MaybeNull τ).addr = 0 := rfl
  refine ⟨⟨?_, ?_⟩, ⟨?_, ?_⟩, ?_⟩ <;>
    simp [MaybeNull.wrapping_byte_add, MaybeNull.wrapping_add,
      MaybeNull.is_null_map, MaybeNull.addr_map, hnull, hc, hd, hp]

theorem c10_witness :
    (5 : Nat) % WORD ≠ 0 ∧ (5 * tyU8.size) % WORD ≠ 0 ∧
    ((MaybeNull.new (WORD - 5) : MaybeNull tyU8).addr + 5) % WORD = 0 ∧
    ((((MaybeNull.null : MaybeNull tyU8).wrapping_byte_add 5).is_null = false ∧
      ((MaybeNull.null : MaybeNull tyU8).wrapping_byte_add 5).addr = 5 % WORD) ∧
     (((MaybeNull.null : MaybeNull tyU8).wrapping_add 5).is_null = false ∧
      ((MaybeNull.null : MaybeNull tyU8).wrapping_add 5).addr = 5 * tyU8.size % WORD) ∧
     (((MaybeNull.new (WORD - 5) : MaybeNull tyU8).wrapping_byte_add 5).is_null = true)) :=
  ⟨by norm_num [WORD], by norm_num [WORD, tyU8],
    by rw [MaybeNull.addr_new]; norm_num [WORD],
    c10_wrapping_not_absence_preserving 5 5 (MaybeNull.new (WORD - 5))
      (by norm_num [WORD]) (by norm_num [WORD, tyU8])
      (by rw [MaybeNull.addr_new]; norm_num [WORD])⟩

/-- C3 counterexample: the claim says every value's hash equals the hash
of its raw address value.  For the non-absent value at address 1 the
derived `Hash` writes the `Some` discriminant before the address, so
the stream is `[1, 1]`, not the bare-address stream `[1]`. -/
theorem c3_counterexample :
    ¬ ((MaybeNull.from_non_null (⟨1, Nat.one_ne_zero⟩ : NonNull tyU8)).hash [] =
        hashUsize (MaybeNull.from_non_null
          (⟨1, Nat.one_ne_zero⟩ : NonNull tyU8)).addr []) := by
  decide

/-- C3 (amended): equality and ordering of `MaybeNull` values are
defined purely on the raw address, with absent behaving as address
zero; hashing is likewise a function of the raw address alone — two
values hash identically iff their addresses are equal, and the absent
value's hash writes exactly the zero word — but a non-absent value's
hash is the hash of the (discriminant, address) pair, not of the bare
address integer. -/
theorem c3_eq_ord_hash_on_addr {τ : RustTy} (p q : MaybeNull τ) (s : HashStream) :
    (p.beq q = true ↔ p.addr = q.addr) ∧
    (p.cmp q = compare p.addr q.addr) ∧
    (p.hash s = q.hash s ↔ p.addr = q.addr) ∧
    ((MaybeNull.null : MaybeNull τ).hash s = hashUsize 0 s) := by
  obtain ⟨_ | a⟩ := p <;> obtain ⟨_ | b⟩ := q <;>
    refine ⟨?_, ?_, ?_, rfl⟩ <;>
    simp [MaybeNull.beq, MaybeNull.cmp, MaybeNull.hash, MaybeNull.addr,
      optNonNullBeq, optNonNullCmp, optNonNullHash, hashUsize]
  case mk.none.mk.none.refine_2 => exact (Nat.compare_eq_eq.mpr rfl).symm
  case mk.none.mk.some.refine_1 => exact fun h => b.ne h.symm
  case mk.none.mk.some.refine_2 =>
    exact (Nat.compare_eq_lt.mpr (Nat.pos_of_ne_zero b.ne)).symm
  case mk.none.mk.some.refine_3 => exact fun h => b.ne h.symm
  case mk.some.mk.none.refine_1 => exact a.ne
  case mk.some.mk.none.refine_2 =>
    exact (Nat.compare_eq_gt.mpr (Nat.pos_of_ne_zero a.ne)).symm
  case mk.some.mk.none.refine_3 => exact a.ne
